import Mathlib

/-!
Shallow embedding of the mark-rs styled terminal buffer core
(`src/style/flags.rs`, `src/style/mod.rs`, `src/terminal/buffer.rs`).

Conventions of the embedding:
* Rust machine integers (`u8`, `u16`, `u32`, `usize`) become `Nat`; the only
  arithmetic that can overflow in the modelled code is the saturating
  float-to-`u8` cast, modelled explicitly.
* `f32` components become `ℚ`.  Every concrete input evaluated in a theorem
  below is chosen so that the corresponding `f32` computation is exact
  (dyadic rationals well inside the mantissa range), so the `ℚ` model and the
  `f32` code agree at those points.  `f32::round` rounds half away from zero;
  on the nonnegative values arising here that coincides with Mathlib's
  `round` (half up).
* Fallible operations return `Option`/`Except`-like types; a Rust `panic!`
  or `.unwrap()` failure is an explicit `none` / `panicked` value.
-/

namespace MarkRs

/-- Rust `Vec::join(sep)`: elements interleaved with the separator. -/
def joinSep (sep : String) : List String → String
  | [] => ""
  | [x] => x
  | x :: y :: rest => x ++ sep ++ joinSep sep (y :: rest)

/-! ### StyleFlag (`src/style/flags.rs`) -/

/-- `StyleFlag(pub u32)`: a bit-set of emphasis attributes. -/
structure StyleFlag where
  val : Nat
  deriving DecidableEq, Repr

/-- Bitwise OR (`impl BitOr for StyleFlag`). -/
def StyleFlag.lor (a b : StyleFlag) : StyleFlag := ⟨a.val ||| b.val⟩

/-- Bitwise AND (`impl BitAnd for StyleFlag`). -/
def StyleFlag.land (a b : StyleFlag) : StyleFlag := ⟨a.val &&& b.val⟩

def BOLD : StyleFlag := ⟨1⟩
def ITALIC : StyleFlag := ⟨2⟩
def UNDERLINE : StyleFlag := ⟨4⟩
def CROSSED : StyleFlag := ⟨8⟩
def BLINK : StyleFlag := ⟨16⟩
def REVERSED : StyleFlag := ⟨32⟩
def RESET : StyleFlag := ⟨64⟩

/-- `self & FLAG == FLAG` membership test used throughout the source. -/
def StyleFlag.hasFlag (s f : StyleFlag) : Bool := s.land f = f

/-- `StyleFlag::ansi`: set codes in the fixed source order. -/
def StyleFlag.ansi (s : StyleFlag) : String :=
  let codes : List String :=
    (if s.hasFlag BOLD then ["1"] else []) ++
    (if s.hasFlag ITALIC then ["3"] else []) ++
    (if s.hasFlag UNDERLINE then ["4"] else []) ++
    (if s.hasFlag CROSSED then ["9"] else []) ++
    (if s.hasFlag BLINK then ["5"] else []) ++
    (if s.hasFlag REVERSED then ["7"] else [])
  joinSep ";" codes

/-- `StyleFlag::reset_ansi`: `"0"` when RESET is present, else per-attribute
reset codes in the same order. -/
def StyleFlag.reset_ansi (s : StyleFlag) : String :=
  if s.hasFlag RESET then "0"
  else
    let codes : List String :=
      (if s.hasFlag BOLD then ["22"] else []) ++
      (if s.hasFlag ITALIC then ["23"] else []) ++
      (if s.hasFlag UNDERLINE then ["24"] else []) ++
      (if s.hasFlag CROSSED then ["29"] else []) ++
      (if s.hasFlag BLINK then ["25"] else []) ++
      (if s.hasFlag REVERSED then ["27"] else [])
    joinSep ";" codes

/-! ### Colors (`src/style/mod.rs`) -/

/-- `enum SystemColor`. -/
inductive SystemColor where
  | BLACK | RED | GREEN | YELLOW | BLUE | MAGENTA | CYAN | WHITE
  deriving DecidableEq, Repr

/-- `SystemColor::ansi`. -/
def SystemColor.ansi : SystemColor → String
  | .BLACK => "0"
  | .RED => "1"
  | .GREEN => "2"
  | .YELLOW => "3"
  | .BLUE => "4"
  | .MAGENTA => "5"
  | .CYAN => "6"
  | .WHITE => "7"

/-- `enum Color`.  `u8`/`u16` fields become `Nat`, `f32` fields become `ℚ`. -/
inductive Color where
  | System (s : SystemColor)
  | Ansi (value : Nat)
  | RGB (r g b : Nat)
  | HSL (h : Nat) (s l : ℚ)
  | HSV (h : Nat) (s v : ℚ)
  | CYMK (c y m k : ℚ)
  deriving DecidableEq, Repr

/-- Rust `%` (truncated remainder) by `2.0`; the operands in the source are
nonnegative, where truncated and floored remainder coincide. -/
def fmod2 (q : ℚ) : ℚ := q - 2 * ⌊q / 2⌋

/-- `.round() as u8`: round half away from zero, then saturating cast.  All
values cast in the modelled code are nonnegative, where rounding half away
from zero equals `round` (half up). -/
def roundU8 (q : ℚ) : Nat := min 255 (round q).toNat

/-- `as u8` on an `f32` (CMYK arm): truncate toward zero, saturating.  The
values cast are nonnegative, where truncation toward zero is `⌊·⌋`. -/
def truncU8 (q : ℚ) : Nat := min 255 (⌊q⌋).toNat

/-- `format_hs_color`: the six-sector dispatch.  The source `panic!`s when no
sector matches (the `else` branch); the panic is modelled as `none`. -/
def format_hs_color (c h x m : ℚ) : Option String :=
  let rgb : Option (ℚ × ℚ × ℚ) :=
    if 0 < h ∧ h < 1 then some (c, x, 0)
    else if 1 ≤ h ∧ h ≤ 2 then some (x, c, 0)
    else if 2 ≤ h ∧ h ≤ 3 then some (0, c, x)
    else if 3 ≤ h ∧ h ≤ 4 then some (0, x, c)
    else if 4 ≤ h ∧ h ≤ 5 then some (x, 0, c)
    else if 5 ≤ h ∧ h ≤ 6 then some (c, 0, x)
    else none
  rgb.map fun p =>
    "8;2;" ++ toString (roundU8 ((p.1 + m) * 255)) ++ ";" ++
      toString (roundU8 ((p.2.1 + m) * 255)) ++ ";" ++
      toString (roundU8 ((p.2.2 + m) * 255))

/-- `impl AnsiSequence for Color`, `fn ansi`.  The HSL/HSV arms can reach the
panic in `format_hs_color`, hence `Option`. -/
def Color.ansi : Color → Option String
  | .System sys => some sys.ansi
  | .Ansi value => some ("8;5;" ++ toString value)
  | .RGB r g b =>
      some ("8;2;" ++ toString r ++ ";" ++ toString g ++ ";" ++ toString b)
  | .HSV h s v =>
      let c := v * s
      let hq := (h : ℚ) / 60
      let x := c * (1 - |fmod2 hq - 1|)
      let m := v - c
      format_hs_color c hq x m
  | .HSL h s l =>
      let c := (1 - |2 * l - 1|) * s
      let hq := (h : ℚ) / 60
      let x := c * (1 - (fmod2 hq - 1))
      let m := l - c / 2
      format_hs_color c hq x m
  | .CYMK c y m k =>
      let kp := 1 - k
      let r := 255 * (1 - c) * kp
      let g := 255 * (1 - y) * kp
      let b := 255 * (1 - m) * kp
      some ("8;2;" ++ toString (truncU8 r) ++ ";" ++ toString (truncU8 g) ++
        ";" ++ toString (truncU8 b))

/-- `Color::reset_ansi` is the constant `"9"`. -/
def Color.reset_ansi (_ : Color) : String := "9"

/-- `Color::fg`: `"3"` prepended to the ansi fragment. -/
def Color.fg (c : Color) : Option String := (c.ansi).map fun a => "3" ++ a

/-- `Color::bg`: `"4"` prepended to the ansi fragment. -/
def Color.bg (c : Color) : Option String := (c.ansi).map fun a => "4" ++ a

/-- `Color::reset_fg`. -/
def Color.reset_fg (c : Color) : String := "3" ++ c.reset_ansi

/-- `Color::reset_bg`. -/
def Color.reset_bg (c : Color) : String := "4" ++ c.reset_ansi

/-- `Color::hsl`: range-checked constructor, checks in source order. -/
def Color.hsl (h : Nat) (s l : ℚ) : Except String Color :=
  if 1 < s ∨ 1 < l then
    .error "Saturation or lightness in hsl is greater than to 1.0 which is out of bounds"
  else if s < 0 ∨ l < 0 then
    .error "Saturation or lightness in hsl is less than 0.0 which is out of bounds"
  else if 360 ≤ h then
    .error "Hue in hsl is greater than or equal to 360 which is out of bounds"
  else .ok (.HSL h s l)

/-- `Color::hsv`: range-checked constructor, checks in source order. -/
def Color.hsv (h : Nat) (s v : ℚ) : Except String Color :=
  if 1 < s ∨ 1 < v then
    .error "Saturation or Value in hsv is greater than to 1.0 which is out of bounds"
  else if s < 0 ∨ v < 0 then
    .error "Saturation or Value in hsv is less than 0.0 which is out of bounds"
  else if 360 ≤ h then
    .error "Hue in hsv is greater than or equal to 360 which is out of bounds"
  else .ok (.HSV h s v)

/-- `Color::cymk`: range-checked constructor, checks in source order
(low bound first, unlike hsl/hsv). -/
def Color.cymk (c y m k : ℚ) : Except String Color :=
  if c < 0 ∨ y < 0 ∨ m < 0 ∨ k < 0 then
    .error "CYMK value is less than 0.0 which is out of bounds"
  else if 1 < c ∨ 1 < y ∨ 1 < m ∨ 1 < k then
    .error "CYMK value is greater than 1.0 which is out of bounds"
  else .ok (.CYMK c y m k)

/-! ### Hex parsing (`impl From<&str> for Color`) -/

/-- Value of one hex digit, as accepted by `u32::from_str_radix(_, 16)`. -/
def hexVal? (c : Char) : Option Nat :=
  if '0' ≤ c ∧ c ≤ '9' then some (c.toNat - 48)
  else if 'a' ≤ c ∧ c ≤ 'f' then some (c.toNat - 97 + 10)
  else if 'A' ≤ c ∧ c ≤ 'F' then some (c.toNat - 65 + 10)
  else none

/-- Accumulate hex digits; fails on any non-digit. -/
def parseHexAux : List Char → Nat → Option Nat
  | [], acc => some acc
  | c :: rest, acc =>
    match hexVal? c with
    | some d => parseHexAux rest (acc * 16 + d)
    | none => none

/-- Drop the optional leading `+` accepted by `u32::from_str_radix`. -/
def stripPlus : List Char → List Char
  | [] => []
  | c :: rest => if c = '+' then rest else c :: rest

/-- `u32::from_str_radix(s, 16)`: optional leading `+`, at least one digit,
all hex digits, value within `u32`. -/
def fromStrRadix16 (cs : List Char) : Option Nat :=
  match stripPlus cs with
  | [] => none
  | d :: rest =>
    match parseHexAux (d :: rest) 0 with
    | some n => if n < 2 ^ 32 then some n else none
    | none => none

/-- `value.strip_prefix("#").unwrap_or(value)`. -/
def stripHashMark (s : String) : List Char :=
  match s.data with
  | '#' :: rest => rest
  | l => l

/-- The 3/4-digit shorthand expansion: duplicate every character. -/
def expandShort (cs : List Char) : List Char :=
  if cs.length = 3 ∨ cs.length = 4 then ((cs.map fun c => [c, c])).flatten else cs

/-- Outcome of `Color::from(&str)`: the source `unwrap`s the `u32` parse, so
a failed parse is an unrecoverable panic, modelled explicitly. -/
inductive ParseOutcome where
  | ok (c : Color)
  | panicked
  deriving DecidableEq, Repr

/-- `impl From<&str> for Color`: strip `#`, expand 3/4-digit shorthand, parse
as `u32`, take big-endian bytes 1..3 as r, g, b. -/
def Color.fromStr (s : String) : ParseOutcome :=
  let value := expandShort (stripHashMark s)
  match fromStrRadix16 value with
  | none => .panicked
  | some n => .ok (.RGB (n / 2 ^ 16 % 256) (n / 2 ^ 8 % 256) (n % 256))

/-! ### Hyperlink and Style (`src/style/mod.rs`)

The source `Style<D>` is generic over the hyperlink's `Display` type; the
buffer instantiates it at `_Placeholder` (which displays as the empty
string).  The link is modelled as the displayed text, `Option String`. -/

/-- `Hyperlink::sequence` (OSC-8 open). -/
def Hyperlink.seqOpen (url : String) : String := "\x1b]8;;" ++ url ++ "\x1b\\"

/-- `Hyperlink::reset_sequence` (OSC-8 close). -/
def Hyperlink.seqClose : String := "\x1b]8;;\x1b\\"

/-- `struct Style`. -/
structure Style where
  flags : StyleFlag
  fg : Option Color
  bg : Option Color
  link : Option String
  deriving DecidableEq, Repr

/-- Modelled from the spec: `buffer.rs` uses `Style::default()` but no
`Default` impl for `Style` appears under src/ (the type was mid-refactor).
Spec §4.6 calls it "the default (empty) style": no flags, no colors, no
link; `StyleFlag` itself derives `Default` (all bits clear) in the source. -/
def Style.default : Style := ⟨⟨0⟩, none, none, none⟩

/-- `Style::ansi`: flag codes, then fg, then bg, semicolon-joined; empty
string when nothing contributes.  `Option` because `Color::ansi` can panic. -/
def Style.ansi (s : Style) : Option String := do
  let a0 : List String := if 0 < s.flags.val then [s.flags.ansi] else []
  let a1 : List String ←
    match s.fg with
    | some c => do
        let f ← c.fg
        pure (a0 ++ [f])
    | none => pure a0
  let a2 : List String ←
    match s.bg with
    | some c => do
        let b ← c.bg
        pure (a1 ++ [b])
    | none => pure a1
  pure (if 0 < a2.length then joinSep ";" a2 else "")

/-- `Style::reset_ansi`.  NOTE (faithful to the source): when RESET is set
this returns the full sequence `"\x1b[0m"`, not the bare code `"0"`, even
though every other `reset_ansi` in the crate returns a bare code fragment. -/
def Style.reset_ansi (s : Style) : String :=
  if s.flags.land RESET = RESET then "\x1b[0m"
  else
    let codes : List String :=
      (match s.fg with
        | some c => [c.reset_fg]
        | none => []) ++
      (match s.bg with
        | some c => [c.reset_bg]
        | none => []) ++
      (if 0 < s.flags.val then [s.flags.reset_ansi] else [])
    if 0 < codes.length then joinSep ";" codes else ""

/-- `Style::sequence`: hyperlink open (if any) then `ESC[` ansi `m`. -/
def Style.sequence (s : Style) : Option String :=
  (s.ansi).map fun a =>
    (match s.link with
      | some l => Hyperlink.seqOpen l
      | none => "") ++ "\x1b[" ++ a ++ "m"

/-- `Style::reset_sequence`: `ESC[` reset_ansi `m` then hyperlink close. -/
def Style.reset_sequence (s : Style) : String :=
  "\x1b[" ++ s.reset_ansi ++ "m" ++
    (match s.link with
      | some _ => Hyperlink.seqClose
      | none => "")

/-! ### TerminalBuffer (`src/terminal/buffer.rs`) -/

/-- Modelled from the spec: `Style::hash_key` is called in `buffer.rs` but
its definition is nowhere under src/.  Spec §4.3: the key is a stable hash
derived from all four fields of the style, with collisions between distinct
styles never silently merged; modelled collision-free as the style value
itself.  Equal styles map to equal keys, distinct styles to distinct keys. -/
def Style.hash_key (s : Style) : Style := s

/-- The key type of the style table (`u64` in the source, here the
collision-free model above). -/
abbrev StyleKey := Style

/-- `struct Character { style: Option<u64>, character: char }`. -/
structure Character where
  style : Option StyleKey
  character : Char
  deriving DecidableEq, Repr

/-- `struct MappedStyle { style: Style, refs: usize }`. -/
structure MappedStyle where
  style : Style
  refs : Nat
  deriving DecidableEq, Repr

/-- `MappedStyle::increment`. -/
def MappedStyle.increment (m : MappedStyle) : MappedStyle :=
  { m with refs := m.refs + 1 }

/-- `MappedStyle::decrement`: saturating decrement, reports reaching zero. -/
def MappedStyle.decrement (m : MappedStyle) : MappedStyle × Bool :=
  let m' := { m with refs := m.refs - 1 }
  (m', m'.refs = 0)

/-- The `HashMap<u64, MappedStyle>` modelled as an association list. -/
abbrev StylesMap := List (StyleKey × MappedStyle)

/-- `HashMap::get`. -/
def StylesMap.find? (t : StylesMap) (k : StyleKey) : Option MappedStyle :=
  match t with
  | [] => none
  | (k', m) :: rest => if k' = k then some m else StylesMap.find? rest k

/-- `get_mut(..).increment()`: increment the entry at `k`, if present. -/
def StylesMap.incrementKey : StylesMap → StyleKey → StylesMap
  | [], _ => []
  | (k', m) :: rest, k =>
    if k' = k then (k', m.increment) :: StylesMap.incrementKey rest k
    else (k', m) :: StylesMap.incrementKey rest k

/-- `struct TerminalBuffer`. -/
structure TerminalBuffer where
  buffer : List (List Character)
  styles : StylesMap
  deriving DecidableEq, Repr

/-- `TerminalBuffer::new`: one empty line, empty style table. -/
def TerminalBuffer.new : TerminalBuffer := ⟨[[]], []⟩

/-- The char loop shared by `push` and `push_styled`, with the lines before
the current last line and the current last line kept apart (mirroring the
source's `last_mut` pointer into the final line). -/
def pushChars (init : List (List Character)) (last : List Character)
    (key : Option StyleKey) : List Char → List (List Character) × List Character
  | [] => (init, last)
  | c :: rest =>
    if c = '\n' then pushChars (init ++ [last]) [] key rest
    else pushChars init (last ++ [⟨key, c⟩]) key rest

/-- `TerminalBuffer::push`.  `self.buffer.last_mut().unwrap()` panics on an
empty line list; the panic is modelled as `none`. -/
def TerminalBuffer.push (b : TerminalBuffer) (chunk : String) :
    Option TerminalBuffer :=
  match b.buffer.getLast? with
  | none => none
  | some last =>
    let p := pushChars b.buffer.dropLast last none chunk.data
    some { b with buffer := p.1 ++ [p.2] }

/-- `TerminalBuffer::push_styled`: intern the style once (increment if the
key is present, else insert with refcount 1), then append every character
with `style = Some(key)`. -/
def TerminalBuffer.push_styled (b : TerminalBuffer) (style : Style)
    (chunk : String) : Option TerminalBuffer :=
  let key := style.hash_key
  let styles :=
    if (StylesMap.find? b.styles key).isSome then
      StylesMap.incrementKey b.styles key
    else b.styles ++ [(key, ⟨style, 1⟩)]
  match b.buffer.getLast? with
  | none => none
  | some last =>
    let p := pushChars b.buffer.dropLast last (some key) chunk.data
    some { buffer := p.1 ++ [p.2], styles := styles }

/-- The four `panic!` conditions of `TerminalBuffer::replace`, in source
order, carrying the range endpoints the messages interpolate. -/
inductive ReplaceError where
  | lineOutOfBounds (s e : Nat)
  | invalidLineRange (s e : Nat)
  | columnOutOfBounds (s e : Nat)
  | invalidColumnRange (s e : Nat)
  deriving DecidableEq, Repr

/-- Outcome of `TerminalBuffer::replace`: a `panic!` is an unrecoverable
termination, kept distinct from any recoverable error value. -/
inductive ReplaceResult where
  | ok (b : TerminalBuffer)
  | panicked (e : ReplaceError)
  deriving DecidableEq, Repr

/-- `TerminalBuffer::replace`.  A `ReplaceRange` argument pair distils to its
`(start, end)` endpoints (`Range<usize>` gives them verbatim).  The source
validates, then only `println!`s the computed ranges — the splice body is an
unimplemented TODO — so the accepted path returns the buffer unchanged. -/
def TerminalBuffer.replace (b : TerminalBuffer)
    (lineStart lineEnd colStart colEnd : Nat) (_chunk : String) :
    ReplaceResult :=
  if b.buffer.length ≤ lineStart ∨ b.buffer.length ≤ lineEnd then
    .panicked (.lineOutOfBounds lineStart lineEnd)
  else if lineEnd < lineStart then
    .panicked (.invalidLineRange lineStart lineEnd)
  else if (b.buffer.getD lineStart []).length ≤ colStart then
    .panicked (.columnOutOfBounds colStart colEnd)
  else if colEnd < colStart then
    .panicked (.invalidColumnRange colStart colEnd)
  else .ok b

/-! ### Renderer (`impl Display for TerminalBuffer`) -/

/-- Style of a cell: table lookup (whose `unwrap` panics on a dangling key,
modelled as `none`) or `Style::default()`.  The source compares styles with
`!=`; no `PartialEq` impl appears under src/ (mid-refactor), and spec §3
states equality is field-wise, which is the derived structural equality. -/
def resolveStyle (styles : StylesMap) (c : Character) : Option Style :=
  match c.style with
  | some key => (StylesMap.find? styles key).map fun m => m.style
  | none => some Style.default

/-- Render one line, threading the current active style; emits
`curr.reset_sequence ++ style.sequence` exactly on style transitions. -/
def renderLine (styles : StylesMap) (curr : Style) (acc : String) :
    List Character → Option (String × Style)
  | [] => some (acc, curr)
  | ch :: rest => do
    let style ← resolveStyle styles ch
    if curr ≠ style then
      let seq ← style.sequence
      renderLine styles style
        (acc ++ curr.reset_sequence ++ seq ++ ch.character.toString) rest
    else
      renderLine styles curr (acc ++ ch.character.toString) rest

/-- Render all lines, threading the active style across line boundaries. -/
def renderLines (styles : StylesMap) (curr : Style) :
    List (List Character) → Option (List String × Style)
  | [] => some ([], curr)
  | line :: rest => do
    let p ← renderLine styles curr "" line
    let q ← renderLines styles p.2 rest
    pure (p.1 :: q.1, q.2)

/-- `impl Display for TerminalBuffer`: render every line, append the final
reset of the still-active style to the last rendered line (unconditionally,
whenever at least one line exists), and join with `"\n"`. -/
def TerminalBuffer.render (b : TerminalBuffer) : Option String := do
  let p ← renderLines b.styles Style.default b.buffer
  let lines :=
    match p.1.getLast? with
    | none => p.1
    | some l => p.1.dropLast ++ [l ++ p.2.reset_sequence]
  pure (joinSep "\n" lines)

/-! ### Auxiliary definitions for the statements -/

/-- The text of one grid line (the characters of its cells, in order). -/
def lineText (line : List Character) : String :=
  String.mk (line.map fun c => c.character)

/-- A sequence of `push` calls, failing if any call panics. -/
def pushAll (b : TerminalBuffer) : List String → Option TerminalBuffer
  | [] => some b
  | t :: rest => (b.push t).bind fun b' => pushAll b' rest

/-- States reachable from `TerminalBuffer::new` through the buffer's public
mutating operations (a step is taken only when the operation does not
panic). -/
inductive Reachable : TerminalBuffer → Prop where
  | new : Reachable TerminalBuffer.new
  | push (b b' : TerminalBuffer) (s : String) :
      Reachable b → b.push s = some b' → Reachable b'
  | push_styled (b b' : TerminalBuffer) (st : Style) (s : String) :
      Reachable b → b.push_styled st s = some b' → Reachable b'
  | replace (b b' : TerminalBuffer) (ls le cs ce : Nat) (t : String) :
      Reachable b → b.replace ls le cs ce t = .ok b' → Reachable b'

/-- Modelled from the spec: the standard six-sector HSL→RGB formula of
spec §4.4, whose intermediate is `x = c * (1 - |(h/60 mod 2) - 1|)` — with
the absolute value.  Stated only to be compared against the source's HSL
arm of `Color::ansi`, which omits the absolute value. -/
def ansiSpecHSL (h : Nat) (s l : ℚ) : Option String :=
  let c := (1 - |2 * l - 1|) * s
  let hq := (h : ℚ) / 60
  let x := c * (1 - |fmod2 hq - 1|)
  let m := l - c / 2
  format_hs_color c hq x m

/-! ## Helper lemmas -/

theorem parseHexAux_eq_none (c : Char) (hhex : hexVal? c = none) :
    ∀ (cs : List Char) (acc : Nat), c ∈ cs → parseHexAux cs acc = none := by
  intro cs
  induction cs with
  | nil =>
    intro acc hmem
    cases hmem
  | cons d rest ih =>
    intro acc hmem
    simp only [parseHexAux]
    cases hd : hexVal? d with
    | none => rfl
    | some v =>
      rcases List.mem_cons.mp hmem with h1 | h1
      · rw [← h1, hhex] at hd
        cases hd
      · show parseHexAux rest (acc * 16 + v) = none
        exact ih _ h1

theorem mem_stripPlus (c : Char) (hplus : c ≠ '+') :
    ∀ cs : List Char, c ∈ cs → c ∈ stripPlus cs := by
  intro cs hmem
  cases cs with
  | nil => cases hmem
  | cons d rest =>
    simp only [stripPlus]
    by_cases hd : d = '+'
    · rw [if_pos hd]
      rcases List.mem_cons.mp hmem with h1 | h1
      · exact absurd (h1.trans hd) hplus
      · exact h1
    · rw [if_neg hd]
      exact hmem

theorem fromStrRadix16_eq_none (c : Char) (hhex : hexVal? c = none)
    (hplus : c ≠ '+') (cs : List Char) (hmem : c ∈ cs) :
    fromStrRadix16 cs = none := by
  have hmem' : c ∈ stripPlus cs := mem_stripPlus c hplus cs hmem
  unfold fromStrRadix16
  cases hs : stripPlus cs with
  | nil => rfl
  | cons d rest =>
    rw [hs] at hmem'
    have hp : parseHexAux (d :: rest) 0 = none :=
      parseHexAux_eq_none c hhex (d :: rest) 0 hmem'
    simp [hp]

/-! ## Claims -/

/-- C2: in the source, a `Style` whose flags include RESET has reset
sequence `"\x1b[\x1b[0mm"`, not the universal reset `"\x1b[0m"` the claim
(and the crate's own documentation of `AnsiSequence`) requires:
`Style::reset_ansi` returns the already-wrapped `"\x1b[0m"`, which
`reset_sequence` wraps in `ESC[..m` a second time. -/
theorem C2_reset_flag_sequence_malformed :
    ({ flags := RESET, fg := none, bg := none, link := none } : Style).reset_sequence
        = "\x1b[\x1b[0mm" ∧
      "\x1b[\x1b[0mm" ≠ "\x1b[0m" := by
  constructor
  · rfl
  · decide

/-- C3: the in-bounds color `hsl(0, 0.5, 0.5)` is accepted by the
constructor, yet converting it to an ANSI fragment reaches the panic branch
of `format_hs_color` (modelled as `none`): the first sector test is the
strict `0 < h`, so hue 0 matches no sector. -/
theorem C3_hue_zero_reaches_panic :
    Color.hsl 0 (1/2) (1/2) = Except.ok (Color.HSL 0 (1/2) (1/2)) ∧
      (Color.HSL 0 (1/2) (1/2)).ansi = none := by
  constructor
  · norm_num [Color.hsl]
  · norm_num [Color.ansi, format_hs_color, fmod2]

/-- C4: the source's HSL arm omits the absolute value in the intermediate
`x`: at the in-bounds color `hsl(30, 1.0, 0.5)` the source computes the
fragment `8;2;255;255;0` (the green channel saturates at 255), while the
standard six-sector formula of the spec yields `8;2;255;128;0`. -/
theorem C4_hsl_arm_deviates_from_standard_formula :
    (Color.HSL 30 1 (1/2)).ansi = some "8;2;255;255;0" ∧
      ansiSpecHSL 30 1 (1/2) = some "8;2;255;128;0" ∧
      (Color.HSL 30 1 (1/2)).ansi ≠ ansiSpecHSL 30 1 (1/2) := by
  refine ⟨?_, ?_, ?_⟩
  · norm_num [Color.ansi, format_hs_color, fmod2, roundU8, round_eq]
    rfl
  · norm_num [ansiSpecHSL, format_hs_color, fmod2, roundU8, round_eq,
      abs_of_nonneg]
    rfl
  · norm_num [Color.ansi, ansiSpecHSL, format_hs_color, fmod2, roundU8,
      round_eq, abs_of_nonneg]
    decide

/-- C5: `replace` with the line range `0..1` and column range `0..2` on a
buffer holding the single line `"Hello"` — a perfectly valid range per the
claim (it addresses only line 0 and columns below 5) — terminates with the
out-of-bounds panic instead of splicing: the bounds check rejects any
exclusive line end equal to the line count, and a panic is not a
recoverable error. -/
theorem C5_replace_panics_on_valid_range :
    (TerminalBuffer.new.push "Hello").map
        (fun b => b.replace 0 1 0 2 "Hi") =
      some (ReplaceResult.panicked (ReplaceError.lineOutOfBounds 0 1)) := by
  rfl

/-- C6 counterexample: `Color::from("zz")` hits the `unwrap` panic (the
modelled `panicked` outcome), not a recoverable `InvalidFormat` error. -/
theorem C6_malformed_hex_counterexample :
    Color.fromStr "zz" = ParseOutcome.panicked := rfl

/-- C6 (amended): construction of a `Color` from a hex literal containing a
character that is not a hex digit (nor the leading `+` the underlying
`u32` parser tolerates) terminates with the panic of the unwrapped
`u32::from_str_radix`, not with a recoverable error. -/
theorem C6_malformed_hex_panics (s : String) (c : Char)
    (hmem : c ∈ expandShort (stripHashMark s)) (hhex : hexVal? c = none)
    (hplus : c ≠ '+') : Color.fromStr s = ParseOutcome.panicked := by
  unfold Color.fromStr
  simp only [fromStrRadix16_eq_none c hhex hplus _ hmem]

/-- C6 witness: the amended theorem applied at the literal `"zz"`. -/
theorem C6_malformed_hex_panics_witness :
    'z' ∈ expandShort (stripHashMark "zz") ∧ hexVal? 'z' = none ∧
      Color.fromStr "zz" = ParseOutcome.panicked :=
  ⟨by decide, by decide,
    C6_malformed_hex_panics "zz" 'z' (by decide) (by decide) (by decide)⟩

/-- C7: `Color::hsl`, `Color::hsv` and `Color::cymk` return an error naming
the violated bound for every out-of-bounds component — in particular hue
exactly 360 is rejected — and return `Ok` with the components stored
unchanged for every in-bounds input. -/
theorem C7_constructor_bounds :
    ∀ (h : Nat) (s l v c y m k : ℚ),
      (s ≤ 1 → l ≤ 1 → 0 ≤ s → 0 ≤ l → h < 360 →
        Color.hsl h s l = .ok (.HSL h s l)) ∧
      (1 < s ∨ 1 < l → Color.hsl h s l =
        .error "Saturation or lightness in hsl is greater than to 1.0 which is out of bounds") ∧
      (s < 0 ∨ l < 0 → s ≤ 1 → l ≤ 1 → Color.hsl h s l =
        .error "Saturation or lightness in hsl is less than 0.0 which is out of bounds") ∧
      (360 ≤ h → 0 ≤ s → s ≤ 1 → 0 ≤ l → l ≤ 1 → Color.hsl h s l =
        .error "Hue in hsl is greater than or equal to 360 which is out of bounds") ∧
      (s ≤ 1 → v ≤ 1 → 0 ≤ s → 0 ≤ v → h < 360 →
        Color.hsv h s v = .ok (.HSV h s v)) ∧
      (1 < s ∨ 1 < v → Color.hsv h s v =
        .error "Saturation or Value in hsv is greater than to 1.0 which is out of bounds") ∧
      (s < 0 ∨ v < 0 → s ≤ 1 → v ≤ 1 → Color.hsv h s v =
        .error "Saturation or Value in hsv is less than 0.0 which is out of bounds") ∧
      (360 ≤ h → 0 ≤ s → s ≤ 1 → 0 ≤ v → v ≤ 1 → Color.hsv h s v =
        .error "Hue in hsv is greater than or equal to 360 which is out of bounds") ∧
      (0 ≤ c → 0 ≤ y → 0 ≤ m → 0 ≤ k → c ≤ 1 → y ≤ 1 → m ≤ 1 → k ≤ 1 →
        Color.cymk c y m k = .ok (.CYMK c y m k)) ∧
      (c < 0 ∨ y < 0 ∨ m < 0 ∨ k < 0 → Color.cymk c y m k =
        .error "CYMK value is less than 0.0 which is out of bounds") ∧
      ((1 < c ∨ 1 < y ∨ 1 < m ∨ 1 < k) → 0 ≤ c → 0 ≤ y → 0 ≤ m → 0 ≤ k →
        Color.cymk c y m k =
          .error "CYMK value is greater than 1.0 which is out of bounds") := by
  intro h s l v c y m k
  refine ⟨?_, ?_, ?_, ?_, ?_, ?_, ?_, ?_, ?_, ?_, ?_⟩
  · intro hs hl h0s h0l hh
    unfold Color.hsl
    rw [if_neg (by push_neg; exact ⟨hs, hl⟩),
      if_neg (by push_neg; exact ⟨h0s, h0l⟩), if_neg (by omega)]
  · intro h12
    unfold Color.hsl
    rw [if_pos h12]
  · intro hlow hs hl
    unfold Color.hsl
    rw [if_neg (by push_neg; exact ⟨hs, hl⟩), if_pos hlow]
  · intro hh h0s hs h0l hl
    unfold Color.hsl
    rw [if_neg (by push_neg; exact ⟨hs, hl⟩),
      if_neg (by push_neg; exact ⟨h0s, h0l⟩), if_pos hh]
  · intro hs hv h0s h0v hh
    unfold Color.hsv
    rw [if_neg (by push_neg; exact ⟨hs, hv⟩),
      if_neg (by push_neg; exact ⟨h0s, h0v⟩), if_neg (by omega)]
  · intro h12
    unfold Color.hsv
    rw [if_pos h12]
  · intro hlow hs hv
    unfold Color.hsv
    rw [if_neg (by push_neg; exact ⟨hs, hv⟩), if_pos hlow]
  · intro hh h0s hs h0v hv
    unfold Color.hsv
    rw [if_neg (by push_neg; exact ⟨hs, hv⟩),
      if_neg (by push_neg; exact ⟨h0s, h0v⟩), if_pos hh]
  · intro h0c h0y h0m h0k hc hy hm hk
    unfold Color.cymk
    rw [if_neg (by push_neg; exact ⟨h0c, h0y, h0m, h0k⟩),
      if_neg (by push_neg; exact ⟨hc, hy, hm, hk⟩)]
  · intro hlow
    unfold Color.cymk
    rw [if_pos hlow]
  · intro hhigh h0c h0y h0m h0k
    unfold Color.cymk
    rw [if_neg (by push_neg; exact ⟨h0c, h0y, h0m, h0k⟩), if_pos hhigh]

/-- C7 witness: the bound checks evaluated at concrete inputs — an
in-bounds HSL accepted unchanged, hue 360 rejected, an over-saturated HSV
rejected, and a negative CMYK component rejected. -/
theorem C7_constructor_bounds_witness :
    Color.hsl 120 (1/2) (1/2) = .ok (.HSL 120 (1/2) (1/2)) ∧
      Color.hsl 360 (1/2) (1/2) =
        .error "Hue in hsl is greater than or equal to 360 which is out of bounds" ∧
      Color.hsv 0 2 0 =
        .error "Saturation or Value in hsv is greater than to 1.0 which is out of bounds" ∧
      Color.cymk 0 0 0 (-1) =
        .error "CYMK value is less than 0.0 which is out of bounds" :=
  ⟨(C7_constructor_bounds 120 (1/2) (1/2) 0 0 0 0 0).1 (by norm_num)
      (by norm_num) (by norm_num) (by norm_num) (by norm_num),
    (C7_constructor_bounds 360 (1/2) (1/2) 0 0 0 0 0).2.2.2.1 (by norm_num)
      (by norm_num) (by norm_num) (by norm_num) (by norm_num),
    (C7_constructor_bounds 0 2 0 0 0 0 0 0).2.2.2.2.2.1 (Or.inl (by norm_num)),
    (C7_constructor_bounds 0 0 0 0 0 0 0 (-1)).2.2.2.2.2.2.2.2.2.1
      (by norm_num)⟩

/-- C8 counterexample: the default (all-empty) style's activate sequence is
`"\x1b[m"` — an escape sequence with an empty code list — not the empty
string the claim requires. -/
theorem C8_empty_style_counterexample :
    Style.default.sequence = some "\x1b[m" ∧
      Style.default.sequence ≠ some "" := by
  constructor
  · rfl
  · decide

/-- C8 (amended): for every style with no flags, no colors and no link,
`Style::sequence` is the escape sequence `"\x1b[m"` with an empty code
list (the hyperlink part contributes nothing), not the empty string. -/
theorem C8_empty_style_sequence (s : Style) (hf : s.flags.val = 0)
    (hfg : s.fg = none) (hbg : s.bg = none) (hl : s.link = none) :
    s.sequence = some "\x1b[m" := by
  obtain ⟨⟨fv⟩, fg, bg, link⟩ := s
  simp only at hf hfg hbg hl
  subst hf hfg hbg hl
  rfl

/-- C8 witness: the amended theorem applied at `Style::default()`. -/
theorem C8_empty_style_sequence_witness :
    Style.default.sequence = some "\x1b[m" :=
  C8_empty_style_sequence Style.default rfl rfl rfl rfl

theorem StylesMap.find?_append_self (t : StylesMap) (k : StyleKey)
    (m : MappedStyle) (h : StylesMap.find? t k = none) :
    StylesMap.find? (t ++ [(k, m)]) k = some m := by
  induction t with
  | nil => simp [StylesMap.find?]
  | cons p rest ih =>
    obtain ⟨k', m'⟩ := p
    by_cases hk : k' = k
    · exfalso
      simp only [StylesMap.find?, if_pos hk] at h
      cases h
    · simp only [StylesMap.find?, List.cons_append, if_neg hk] at h ⊢
      exact ih h

theorem StylesMap.find?_incrementKey (t : StylesMap) (k : StyleKey) :
    StylesMap.find? (StylesMap.incrementKey t k) k =
      (StylesMap.find? t k).map MappedStyle.increment := by
  induction t with
  | nil => simp [StylesMap.find?, StylesMap.incrementKey]
  | cons p rest ih =>
    obtain ⟨k', m'⟩ := p
    by_cases hk : k' = k
    · subst hk
      simp [StylesMap.incrementKey, StylesMap.find?]
    · simp [StylesMap.incrementKey, StylesMap.find?, hk, ih]

/-- C9: `push_styled` interns its style exactly once per call, independent
of the pushed text: a first call on a style whose key is absent creates the
table entry with refcount 1, and a second call with an equal style finds
the same key and leaves the entry at refcount 2. -/
theorem C9_intern_once_per_call :
    ∀ (b : TerminalBuffer) (st : Style) (t1 t2 : String) (b1 : TerminalBuffer),
      StylesMap.find? b.styles st.hash_key = none →
      b.push_styled st t1 = some b1 →
      StylesMap.find? b1.styles st.hash_key = some ⟨st, 1⟩ ∧
        ∀ b2, b1.push_styled st t2 = some b2 →
          StylesMap.find? b2.styles st.hash_key = some ⟨st, 2⟩ := by
  intro b st t1 t2 b1 hnone h1
  simp only [TerminalBuffer.push_styled, hnone, Option.isSome_none,
    Bool.false_eq_true, if_false] at h1
  cases hl : b.buffer.getLast? <;> rw [hl] at h1
  · cases h1
  · injection h1 with h1
    have hb1 : StylesMap.find? b1.styles st.hash_key = some ⟨st, 1⟩ := by
      rw [← h1]
      exact StylesMap.find?_append_self b.styles st.hash_key ⟨st, 1⟩ hnone
    refine ⟨hb1, ?_⟩
    intro b2 h2
    simp only [TerminalBuffer.push_styled, hb1, Option.isSome_some,
      if_true] at h2
    cases hl2 : b1.buffer.getLast? <;> rw [hl2] at h2
    · cases h2
    · injection h2 with h2
      rw [← h2]
      show StylesMap.find? (StylesMap.incrementKey b1.styles st.hash_key)
          st.hash_key = some ⟨st, 2⟩
      rw [StylesMap.find?_incrementKey, hb1]
      rfl

/-- C9 witness: two `push_styled` calls with the default style on a fresh
buffer — refcount 1 after the first call and 2 after the second, the texts
being empty and two characters long respectively. -/
theorem C9_intern_once_per_call_witness :
    StylesMap.find?
        (TerminalBuffer.mk [[]]
          [(Style.default, ⟨Style.default, 1⟩)]).styles
        Style.default.hash_key = some ⟨Style.default, 1⟩ ∧
      StylesMap.find?
        (TerminalBuffer.mk
          [[⟨some Style.default, 'a'⟩, ⟨some Style.default, 'b'⟩]]
          [(Style.default, ⟨Style.default, 2⟩)]).styles
        Style.default.hash_key = some ⟨Style.default, 2⟩ := by
  have h := C9_intern_once_per_call TerminalBuffer.new Style.default "" "ab"
    (TerminalBuffer.mk [[]] [(Style.default, ⟨Style.default, 1⟩)])
    (by rfl) (by rfl)
  exact ⟨h.1, h.2 _ (by rfl)⟩

theorem push_buffer_ne_nil (b b' : TerminalBuffer) (t : String)
    (h : b.push t = some b') : b'.buffer ≠ [] := by
  unfold TerminalBuffer.push at h
  cases hl : b.buffer.getLast? <;> rw [hl] at h
  · cases h
  · injection h with h
    rw [← h]
    simp

theorem push_styled_buffer_ne_nil (b b' : TerminalBuffer) (st : Style)
    (t : String) (h : b.push_styled st t = some b') : b'.buffer ≠ [] := by
  simp only [TerminalBuffer.push_styled] at h
  cases hl : b.buffer.getLast? <;> rw [hl] at h
  · cases h
  · injection h with h
    rw [← h]
    simp

theorem replace_ok_eq (b b' : TerminalBuffer) (ls le cs ce : Nat) (t : String)
    (h : b.replace ls le cs ce t = .ok b') : b' = b := by
  unfold TerminalBuffer.replace at h
  split_ifs at h
  injection h with h
  exact h.symm

theorem push_isSome (b : TerminalBuffer) (t : String) (hne : b.buffer ≠ []) :
    (b.push t).isSome = true := by
  unfold TerminalBuffer.push
  cases hl : b.buffer.getLast? with
  | none => exact absurd (List.getLast?_eq_none_iff.mp hl) hne
  | some last => rfl

theorem push_styled_isSome (b : TerminalBuffer) (st : Style) (t : String)
    (hne : b.buffer ≠ []) : (b.push_styled st t).isSome = true := by
  simp only [TerminalBuffer.push_styled]
  cases hl : b.buffer.getLast? with
  | none => exact absurd (List.getLast?_eq_none_iff.mp hl) hne
  | some last => rfl

/-- C10: `new` creates a buffer with exactly one empty line, and every
reachable buffer keeps at least one line, so the internal last-line access
of `push`/`push_styled` (the source's `.last_mut().unwrap()`) never panics
in any reachable state. -/
theorem C10_at_least_one_line :
    TerminalBuffer.new.buffer = [[]] ∧
      ∀ b, Reachable b → b.buffer ≠ [] ∧
        (∀ t, (b.push t).isSome = true) ∧
        (∀ st t, (b.push_styled st t).isSome = true) := by
  refine ⟨rfl, ?_⟩
  have hne : ∀ b, Reachable b → b.buffer ≠ [] := by
    intro b hr
    induction hr with
    | new => simp [TerminalBuffer.new]
    | push b0 b' t hr hstep ih => exact push_buffer_ne_nil b0 b' t hstep
    | push_styled b0 b' st t hr hstep ih =>
      exact push_styled_buffer_ne_nil b0 b' st t hstep
    | replace b0 b' ls le cs ce t hr hstep ih =>
      rw [replace_ok_eq b0 b' ls le cs ce t hstep]
      exact ih
  intro b hr
  exact ⟨hne b hr, fun t => push_isSome b t (hne b hr),
    fun st t => push_styled_isSome b st t (hne b hr)⟩

/-- C10 witness: the invariant instantiated at the freshly created buffer:
its push operations do not hit the last-line panic. -/
theorem C10_at_least_one_line_witness :
    (TerminalBuffer.new.push "x").isSome = true ∧
      (TerminalBuffer.new.push_styled Style.default "y").isSome = true :=
  ⟨((C10_at_least_one_line.2 TerminalBuffer.new Reachable.new).2.1 "x"),
    ((C10_at_least_one_line.2 TerminalBuffer.new Reachable.new).2.2
      Style.default "y")⟩

theorem string_mk_append (xs ys : List Char) :
    String.mk (xs ++ ys) = String.mk xs ++ String.mk ys := rfl

theorem string_join_cons (t : String) (ts : List String) :
    String.join (t :: ts) = t ++ String.join ts := by
  simp [String.join_eq]
  rfl

theorem joinSep_concat (sep : String) :
    ∀ (ls : List String) (x y : String),
      joinSep sep (ls ++ [x ++ y]) = joinSep sep (ls ++ [x]) ++ y := by
  intro ls
  induction ls with
  | nil => intro x y; rfl
  | cons a ls ih =>
    intro x y
    cases ls with
    | nil =>
      simp only [joinSep, List.nil_append, List.cons_append]
      simp [String.append_assoc]
    | cons b ls2 =>
      simp only [joinSep, List.cons_append, List.append_eq]
      simp only [List.cons_append] at ih
      rw [ih x y]
      simp [String.append_assoc]

theorem joinSep_append_of_ne_nil (sep : String) :
    ∀ (ls : List String), ls ≠ [] → ∀ x,
      joinSep sep (ls ++ [x]) = joinSep sep ls ++ sep ++ x := by
  intro ls
  induction ls with
  | nil => intro h; cases h rfl
  | cons a ls ih =>
    intro _ x
    cases ls with
    | nil => rfl
    | cons b ls2 =>
      simp only [joinSep, List.cons_append, List.append_eq]
      simp only [List.cons_append] at ih
      rw [ih (by simp) x]
      simp [String.append_assoc]

theorem pushChars_text :
    ∀ (l : List Char) (init : List (List Character)) (last : List Character)
      (key : Option StyleKey),
      joinSep "\n" (List.map lineText
          ((pushChars init last key l).1 ++ [(pushChars init last key l).2]))
        = joinSep "\n" (List.map lineText (init ++ [last])) ++ String.mk l := by
  intro l
  induction l with
  | nil =>
    intro init last key
    show joinSep "\n" (List.map lineText (init ++ [last]))
        = joinSep "\n" (List.map lineText (init ++ [last])) ++ String.mk []
    rw [show String.mk [] = "" from rfl, String.append_empty]
  | cons c rest ih =>
    intro init last key
    by_cases hc : c = '\n'
    · subst hc
      show joinSep "\n" (List.map lineText
            ((pushChars (init ++ [last]) [] key rest).1 ++
              [(pushChars (init ++ [last]) [] key rest).2]))
          = joinSep "\n" (List.map lineText (init ++ [last])) ++
            String.mk ('\n' :: rest)
      rw [ih]
      rw [List.map_append]
      simp only [List.map_cons, List.map_nil]
      rw [joinSep_append_of_ne_nil "\n" (List.map lineText (init ++ [last]))
        (by simp) (lineText [])]
      rw [show lineText [] = "" from rfl, String.append_empty]
      rw [show String.mk ('\n' :: rest) = "\n" ++ String.mk rest from rfl]
      simp [String.append_assoc]
    · simp only [pushChars, if_neg hc]
      show joinSep "\n" (List.map lineText
            ((pushChars init (last ++ [⟨key, c⟩]) key rest).1 ++
              [(pushChars init (last ++ [⟨key, c⟩]) key rest).2]))
          = joinSep "\n" (List.map lineText (init ++ [last])) ++
            String.mk (c :: rest)
      rw [ih]
      have hlt : lineText (last ++ [⟨key, c⟩]) = lineText last ++ c.toString := by
        unfold lineText
        rw [List.map_append, string_mk_append]
        rfl
      rw [List.map_append, List.map_append]
      simp only [List.map_cons, List.map_nil]
      rw [hlt, joinSep_concat]
      rw [show String.mk (c :: rest) = c.toString ++ String.mk rest from rfl]
      simp [String.append_assoc]

theorem pushChars_plain :
    ∀ (l : List Char) (init : List (List Character)) (last : List Character),
      (∀ line ∈ init, ∀ ch ∈ line, ch.style = none) →
      (∀ ch ∈ last, ch.style = none) →
      (∀ line ∈ (pushChars init last none l).1 ++
          [(pushChars init last none l).2],
        ∀ ch ∈ line, ch.style = none) := by
  intro l
  induction l with
  | nil =>
    intro init last hinit hlast
    show ∀ line ∈ init ++ [last], ∀ ch ∈ line, ch.style = none
    intro line hline
    rcases List.mem_append.mp hline with h | h
    · exact hinit line h
    · rw [List.mem_singleton.mp h]
      exact hlast
  | cons c rest ih =>
    intro init last hinit hlast
    by_cases hc : c = '\n'
    · subst hc
      show ∀ line ∈ (pushChars (init ++ [last]) [] none rest).1 ++
          [(pushChars (init ++ [last]) [] none rest).2],
        ∀ ch ∈ line, ch.style = none
      refine ih (init ++ [last]) [] ?_ (by intro ch hch; cases hch)
      intro line hline
      rcases List.mem_append.mp hline with h | h
      · exact hinit line h
      · rw [List.mem_singleton.mp h]
        exact hlast
    · simp only [pushChars, if_neg hc]
      refine ih init (last ++ [⟨none, c⟩]) hinit ?_
      intro ch hch
      rcases List.mem_append.mp hch with h | h
      · exact hlast ch h
      · rw [List.mem_singleton.mp h]

theorem option_some_bind {A B : Type} (a : A) (f : A → Option B) :
    (do
      let x ← some a
      f x) = f a := rfl

theorem renderLine_plain :
    ∀ (line : List Character), (∀ ch ∈ line, ch.style = none) →
      ∀ (styles : StylesMap) (acc : String),
        renderLine styles Style.default acc line =
          some (acc ++ lineText line, Style.default) := by
  intro line
  induction line with
  | nil =>
    intro hp styles acc
    show some (acc, Style.default) = some (acc ++ lineText [], Style.default)
    rw [show lineText [] = "" from rfl, String.append_empty]
  | cons ch rest ih =>
    intro hp styles acc
    have hch : ch.style = none := hp ch (List.mem_cons_self ch rest)
    have hres : resolveStyle styles ch = some Style.default := by
      unfold resolveStyle
      rw [hch]
    simp only [renderLine, hres]
    rw [option_some_bind]
    rw [if_neg (show ¬Style.default ≠ Style.default from fun h => h rfl)]
    rw [ih (fun c hc => hp c (List.mem_cons_of_mem ch hc)) styles
      (acc ++ ch.character.toString)]
    have heq : acc ++ ch.character.toString ++ lineText rest
        = acc ++ lineText (ch :: rest) := by
      rw [show lineText (ch :: rest) = ch.character.toString ++ lineText rest
        from rfl]
      simp [String.append_assoc]
    rw [heq]

theorem renderLines_plain :
    ∀ (lines : List (List Character)),
      (∀ line ∈ lines, ∀ ch ∈ line, ch.style = none) →
      ∀ (styles : StylesMap),
        renderLines styles Style.default lines =
          some (lines.map lineText, Style.default) := by
  intro lines
  induction lines with
  | nil => intro hp styles; rfl
  | cons line rest ih =>
    intro hp styles
    simp only [renderLines]
    rw [renderLine_plain line (hp line (List.mem_cons_self line rest)) styles ""]
    rw [option_some_bind]
    rw [ih (fun l hl => hp l (List.mem_cons_of_mem line hl)) styles]
    rw [option_some_bind]
    rw [show ("" : String) ++ lineText line = lineText line from
      String.empty_append (lineText line)]
    rfl

theorem render_plain (b : TerminalBuffer) (hne : b.buffer ≠ [])
    (hp : ∀ line ∈ b.buffer, ∀ ch ∈ line, ch.style = none) :
    b.render = some (joinSep "\n" (b.buffer.map lineText) ++ "\x1b[m") := by
  unfold TerminalBuffer.render
  rw [renderLines_plain b.buffer hp b.styles, option_some_bind]
  rcases List.eq_nil_or_concat b.buffer with h | ⟨ls, x, h⟩
  · exact absurd h hne
  · rw [List.concat_eq_append] at h
    rw [h, List.map_append]
    simp only [List.map_cons, List.map_nil, List.getLast?_concat,
      List.dropLast_concat]
    rw [joinSep_concat "\n" (List.map lineText ls) (lineText x)
      Style.default.reset_sequence]
    rfl

theorem push_spec (b b' : TerminalBuffer) (t : String) (hne : b.buffer ≠ [])
    (h : b.push t = some b') :
    b'.styles = b.styles ∧
      joinSep "\n" (b'.buffer.map lineText) =
        joinSep "\n" (b.buffer.map lineText) ++ t ∧
      ((∀ line ∈ b.buffer, ∀ ch ∈ line, ch.style = none) →
        ∀ line ∈ b'.buffer, ∀ ch ∈ line, ch.style = none) := by
  unfold TerminalBuffer.push at h
  have hgl : b.buffer.getLast? = some (b.buffer.getLast hne) :=
    List.getLast?_eq_getLast b.buffer hne
  rw [hgl] at h
  injection h with h
  have hsplit : b.buffer.dropLast ++ [b.buffer.getLast hne] = b.buffer :=
    List.dropLast_append_getLast hne
  refine ⟨?_, ?_, ?_⟩
  · rw [← h]
  · rw [← h]
    show joinSep "\n" (List.map lineText
        ((pushChars b.buffer.dropLast (b.buffer.getLast hne) none t.data).1 ++
          [(pushChars b.buffer.dropLast (b.buffer.getLast hne) none t.data).2]))
      = _
    rw [pushChars_text t.data b.buffer.dropLast (b.buffer.getLast hne) none]
    rw [hsplit]
  · intro hp
    rw [← h]
    show ∀ line ∈ (pushChars b.buffer.dropLast (b.buffer.getLast hne) none
        t.data).1 ++
        [(pushChars b.buffer.dropLast (b.buffer.getLast hne) none t.data).2],
      ∀ ch ∈ line, ch.style = none
    refine pushChars_plain t.data b.buffer.dropLast (b.buffer.getLast hne)
      ?_ ?_
    · intro line hline
      exact hp line (List.dropLast_subset b.buffer hline)
    · exact hp (b.buffer.getLast hne) (List.getLast_mem hne)

theorem pushAll_spec :
    ∀ (ts : List String) (b b' : TerminalBuffer), b.buffer ≠ [] →
      (∀ line ∈ b.buffer, ∀ ch ∈ line, ch.style = none) →
      pushAll b ts = some b' →
      b'.buffer ≠ [] ∧
        (∀ line ∈ b'.buffer, ∀ ch ∈ line, ch.style = none) ∧
        b'.styles = b.styles ∧
        joinSep "\n" (b'.buffer.map lineText) =
          joinSep "\n" (b.buffer.map lineText) ++ String.join ts := by
  intro ts
  induction ts with
  | nil =>
    intro b b' hne hp h
    injection h with h
    subst h
    refine ⟨hne, hp, rfl, ?_⟩
    rw [show String.join [] = "" from rfl, String.append_empty]
  | cons t ts ih =>
    intro b b' hne hp h
    simp only [pushAll] at h
    cases hp1 : b.push t with
    | none => rw [hp1] at h; cases h
    | some b1 =>
      rw [hp1] at h
      obtain ⟨hsty1, htext1, hplain1⟩ := push_spec b b1 t hne hp1
      have hne1 : b1.buffer ≠ [] := push_buffer_ne_nil b b1 t hp1
      obtain ⟨hne', hp', hsty', htext'⟩ := ih b1 b' hne1 (hplain1 hp) h
      refine ⟨hne', hp', hsty'.trans hsty1, ?_⟩
      rw [htext', htext1, string_join_cons]
      simp [String.append_assoc]

/-- C1 counterexample: the plain grid holding `"Hi"` renders to
`"Hi\x1b[m"`, not to the bare concatenation `"Hi"` — the renderer's final
flush appends the default style's reset `ESC[m` unconditionally, so the
output of an escape-free grid still contains an escape sequence. -/
theorem C1_plain_roundtrip_counterexample :
    (TerminalBuffer.new.push "Hi").bind TerminalBuffer.render =
      some "Hi\x1b[m" ∧ ("Hi\x1b[m" : String) ≠ "Hi" :=
  ⟨rfl, by decide⟩

/-- C1 (amended): rendering a grid built purely from `push` calls yields
exactly the concatenation of all appended text, line breaks preserved,
followed by one trailing `"\x1b[m"` (the unconditional final reset of the
still-active default style); no other escape bytes occur. -/
theorem C1_plain_render_trailing_reset :
    ∀ (ts : List String) (b : TerminalBuffer),
      pushAll TerminalBuffer.new ts = some b →
      b.render = some (String.join ts ++ "\x1b[m") := by
  intro ts b h
  have hnew_ne : TerminalBuffer.new.buffer ≠ [] := by simp [TerminalBuffer.new]
  have hnew_plain : ∀ line ∈ TerminalBuffer.new.buffer, ∀ ch ∈ line,
      ch.style = none := by
    intro line hl ch hch
    simp [TerminalBuffer.new] at hl
    subst hl
    cases hch
  obtain ⟨hne', hplain', hsty, htext⟩ :=
    pushAll_spec ts TerminalBuffer.new b hnew_ne hnew_plain h
  rw [render_plain b hne' hplain', htext]
  rw [show joinSep "\n" (TerminalBuffer.new.buffer.map lineText) = ""
    from rfl]
  rw [String.empty_append]

/-- C1 witness: the amended theorem applied to the two appends
`"Hi\n"` and `"!"`. -/
theorem C1_plain_render_trailing_reset_witness :
    pushAll TerminalBuffer.new ["Hi\n", "!"] =
      some (TerminalBuffer.mk
        [[⟨none, 'H'⟩, ⟨none, 'i'⟩], [⟨none, '!'⟩]] []) ∧
      (TerminalBuffer.mk [[⟨none, 'H'⟩, ⟨none, 'i'⟩], [⟨none, '!'⟩]]
          []).render = some (String.join ["Hi\n", "!"] ++ "\x1b[m") :=
  ⟨rfl,
    C1_plain_render_trailing_reset ["Hi\n", "!"]
      (TerminalBuffer.mk [[⟨none, 'H'⟩, ⟨none, 'i'⟩], [⟨none, '!'⟩]] [])
      rfl⟩

end MarkRs

